import Mathlib

/-!
# Verification of the midserve file-serving core

Shallow embedding of the repository's file-serving request handler
(a copy of Go's net/http.FileServer found in src/unnamed/part_000,
wired up in src/main.go) together with proofs of the specification
claims about it.

Conventions of the embedding:
* Go `time.Time` values are embedded as `Int` nanoseconds since the Unix
  epoch.  Go's zero `time.Time` (January 1, year 1, 00:00:00 UTC) is the
  constant `goTimeZero`; `unixEpochTime` is `time.Unix(0, 0)`.
* Go strings are Lean `String`s.  Byte-wise lexicographic comparison of
  UTF-8 encoded Go strings coincides with Lean's codepoint-wise `≤`,
  because UTF-8 preserves codepoint order.
* The HTTP response writer is the explicit state `RW` (headers, status,
  body, and the argument hand-off to the external `http.ServeContent`
  primitive).  Go's implicit `WriteHeader(200)` on first `Write` is
  modelled in `RW.write`.
* Fallible filesystem calls return `Except FSErr`; `FSErr.other` carries
  the raw OS error text so that "the handler never echoes it" is a
  statable property.
-/

namespace Midserve

/-! ## Time (Go time.Time, as Int nanoseconds since the Unix epoch) -/

/-- Go `time.Time`, embedded as nanoseconds since the Unix epoch. -/
abbrev Time := Int

/-- `time.Unix(0, 0)` from src/unnamed/part_000 line 26. -/
def unixEpochTime : Time := 0

/-- Go's zero `time.Time`: January 1, year 1, 00:00:00 UTC, which is
62135596800 seconds before the Unix epoch. -/
def goTimeZero : Time := -62135596800000000000

/-- `isZeroTime` (line 186): `t.IsZero() || t.Equal(unixEpochTime)`. -/
def isZeroTime (t : Time) : Bool := t = goTimeZero || t = unixEpochTime

/-- Go `t.Truncate(time.Second)`: rounds down to a whole second.  (Go
truncates relative to the zero time, which is itself a whole second, so
this is flooring the nanosecond count to a multiple of 10^9.) -/
def truncSec (t : Time) : Time := Int.fdiv t 1000000000 * 1000000000

/-! ## Strings: Go stdlib helpers used by the handler -/

/-- Go `strings.HasSuffix s suf`. -/
def goEndsWith (s suf : String) : Bool := decide (suf.data <:+ s.data)

/-- Go `strings.HasPrefix s pre`. -/
def goStartsWith (s pre : String) : Bool := decide (pre.data <+: s.data)

/-- Go `strings.TrimSuffix s suf`: removes one trailing occurrence. -/
def goTrimSuffix (s suf : String) : String :=
  if goEndsWith s suf then ⟨s.data.take (s.data.length - suf.data.length)⟩ else s

/-- Go `path.Base`: the last element of the path after stripping trailing
slashes; `"."` for the empty string, `"/"` for all-slash paths. -/
def goPathBase (p : String) : String :=
  if p = "" then "."
  else
    let r := p.data.reverse.dropWhile (fun c => c = '/')
    if r = [] then "/"
    else ⟨(r.takeWhile (fun c => c ≠ '/')).reverse⟩

/-! ## Go path.Clean (for rooted inputs)

`fileHandler.ServeHTTP` (lines 57-64) always prepends `"/"` before calling
`path.Clean`, so only the rooted case of `Clean` is embedded.  On a rooted
path, Go's `Clean` (documented rules: collapse multiple slashes, drop `.`
elements, resolve `..` against the preceding element, drop `..` at the
root) is segment-stack processing of the `/`-separated segments. -/

/-- Split a character list on `'/'`, keeping empty segments. -/
def splitSlash : List Char → List (List Char)
  | [] => [[]]
  | c :: cs =>
    if c = '/' then [] :: splitSlash cs
    else
      match splitSlash cs with
      | [] => [[c]]
      | s :: ss => (c :: s) :: ss

/-- Join segments with `'/'`. -/
def joinSlash : List (List Char) → List Char
  | [] => []
  | [s] => s
  | s :: t :: rest => s ++ '/' :: joinSlash (t :: rest)

/-- Segment-stack cleaning for a rooted path: skip empty and `.` segments,
pop on `..` (a pop on an empty stack is dropped, as at the root), push
anything else.  The accumulator holds the kept segments in reverse. -/
def cleanSegs (acc : List (List Char)) : List (List Char) → List (List Char)
  | [] => acc.reverse
  | s :: rest =>
    if s = [] ∨ s = ['.'] then cleanSegs acc rest
    else if s = ['.', '.'] then cleanSegs acc.tail rest
    else cleanSegs (s :: acc) rest

/-- Go `path.Clean` restricted to rooted inputs (the only use of `Clean`
in the handler; `ServeHTTP` guarantees a leading `/`). -/
def goPathClean (p : String) : String :=
  ⟨'/' :: joinSlash (cleanSegs [] (splitSlash p.data))⟩

/-- A path is clean and rooted when it starts with `/` and is either the
root itself or has only nonempty, non-`.`, non-`..` segments (hence also
no duplicate slashes). -/
def isCleanSeg (s : List Char) : Bool :=
  !(s == [] || s == ['.'] || s == ['.', '.'])

/-- Decidable form of "starts with `/`, lexically cleaned": the first
character is `/` and the remainder is empty (the root) or splits into
segments that are nonempty and neither `.` nor `..` (which also rules out
duplicate slashes). -/
def isCleanRootedPath (q : String) : Bool :=
  match q.data with
  | c :: rest => c == '/' && (rest == [] || (splitSlash rest).all isCleanSeg)
  | [] => false

/-! ## HTTP plumbing: headers, response writer, requests -/

/-- A Go `http.Header` (keys are used in canonical form throughout the
handler, so plain string keys suffice). -/
abbrev Header := String → List String

/-- `w.Header().Set(k, v)`. -/
def headerSet (h : Header) (k v : String) : Header :=
  fun k' => if k' = k then [v] else h k'

/-- `delete(h, k)`. -/
def headerDel (h : Header) (k : String) : Header :=
  fun k' => if k' = k then [] else h k'

/-- `h.Get(k)`: first value, or `""`. -/
def headerGet (h : Header) (k : String) : String := (h k).headD ""

/-- The state of the `http.ResponseWriter`: headers, written status (0 =
not yet written), body text, plus the arguments handed off to the external
`http.ServeContent` primitive if the request reached content delivery. -/
structure RW where
  header : Header
  status : Nat
  body : String
  delegated : Option (String × Time)

/-- A fresh response writer. -/
def RW.init : RW := ⟨fun _ => [], 0, "", none⟩

/-- `w.WriteHeader(code)`: the first written status wins. -/
def RW.writeHeader (w : RW) (code : Nat) : RW :=
  if w.status = 0 then { w with status := code } else w

/-- `w.Write(...)`/`fmt.Fprintf(w, ...)`: an implicit `WriteHeader(200)`
happens on the first write. -/
def RW.write (w : RW) (s : String) : RW :=
  let w' := w.writeHeader 200
  { w' with body := w'.body ++ s }

/-- The `If-Modified-Since` request header as seen through Go
`http.ParseTime` (stdlib, outside this repository): absent (`""`),
present but unparsable, or parsed to a time. -/
inductive IMSField where
  | absent
  | malformed
  | given (t : Time)
deriving DecidableEq

/-- The parts of an `*http.Request` the handler reads: method, URL path,
raw query string, and the `If-Modified-Since` header. -/
structure Request where
  method : String
  urlPath : String
  rawQuery : String
  ims : IMSField

/-! ## Filesystem model (http.FileSystem / http.File / os.FileInfo) -/

/-- A filesystem error, classified the way `os.IsNotExist` /
`os.IsPermission` classify it in `toHTTPError`; `other` carries the raw
OS error text. -/
inductive FSErr where
  | notExist
  | permission
  | other (oserr : String)
deriving DecidableEq

/-- `os.FileInfo`: name, directory flag, modification time, size. -/
structure FileInfo where
  name : String
  isDir : Bool
  modtime : Time
  size : Int
deriving DecidableEq

instance {ε α} [DecidableEq ε] [DecidableEq α] : DecidableEq (Except ε α) :=
  fun a b =>
    match a, b with
    | .ok x, .ok y => decidable_of_iff (x = y) (by simp)
    | .error x, .error y => decidable_of_iff (x = y) (by simp)
    | .ok _, .error _ => isFalse (by simp)
    | .error _, .ok _ => isFalse (by simp)

/-- An opened `http.File`: its `Stat()` result and its `Readdir(-1)`
result. -/
structure File where
  stat : Except FSErr FileInfo
  readdir : Except FSErr (List FileInfo)
deriving DecidableEq

/-- An `http.FileSystem`: `Open` on a rooted slash-separated path. -/
abbrev FS := String → Except FSErr File

/-! ## Precondition evaluator and 304 handling (lines 16-24, 186-230) -/

/-- `condResult` (lines 18-24): the result of a precondition check.
`condFalse` means "not modified since" (the spec's *satisfied*: content
unchanged, answer 304); `condTrue` means modified (*not-satisfied*). -/
inductive condResult where
  | condNone
  | condTrue
  | condFalse
deriving DecidableEq

/-- `checkIfModifiedSince` (lines 190-209). -/
def checkIfModifiedSince (r : Request) (modtime : Time) : condResult :=
  if r.method ≠ "GET" ∧ r.method ≠ "HEAD" then .condNone
  else if r.ims = .absent ∨ isZeroTime modtime then .condNone
  else
    match r.ims with
    | .absent => .condNone
    | .malformed => .condNone
    | .given t =>
      let m := truncSec modtime
      if m < t ∨ m = t then .condFalse else .condTrue

/-- `writeNotModified` (lines 211-224): strips `Content-Type` and
`Content-Length`, strips `Last-Modified` only when an `Etag` header is
present, then writes status 304 with no body. -/
def writeNotModified (w : RW) : RW :=
  let h := headerDel w.header "Content-Type"
  let h := headerDel h "Content-Length"
  let h := if headerGet h "Etag" ≠ "" then headerDel h "Last-Modified" else h
  RW.writeHeader { w with header := h } 304

/-! ## Last-Modified formatting (lines 226-230)

`setLastModified` formats `modtime.UTC()` with Go's `http.TimeFormat`
("Mon, 02 Jan 2006 15:04:05 GMT").  The civil-calendar conversion uses
the standard days-to-Gregorian-date algorithm. -/

def weekdayName : Nat → String
  | 0 => "Sun" | 1 => "Mon" | 2 => "Tue" | 3 => "Wed"
  | 4 => "Thu" | 5 => "Fri" | _ => "Sat"

def monthName : Nat → String
  | 1 => "Jan" | 2 => "Feb" | 3 => "Mar" | 4 => "Apr"
  | 5 => "May" | 6 => "Jun" | 7 => "Jul" | 8 => "Aug"
  | 9 => "Sep" | 10 => "Oct" | 11 => "Nov" | _ => "Dec"

def pad2 (n : Nat) : String := if n < 10 then "0" ++ toString n else toString n

/-- Gregorian date (year, month, day) from days since the Unix epoch. -/
def civilFromDays (z0 : Int) : Int × Nat × Nat :=
  let z := z0 + 719468
  let era := Int.fdiv z 146097
  let doe := (z - era * 146097).toNat
  let yoe := (doe - doe / 1460 + doe / 36524 - doe / 146096) / 365
  let doy := doe - (365 * yoe + yoe / 4 - yoe / 100)
  let mp := (5 * doy + 2) / 153
  let d := doy - (153 * mp + 2) / 5 + 1
  let m := if mp < 10 then mp + 3 else mp - 9
  ((yoe : Int) + era * 400 + (if m ≤ 2 then 1 else 0), m, d)

/-- `modtime.UTC().Format(http.TimeFormat)`. -/
def formatHTTPTime (t : Time) : String :=
  let sec := Int.fdiv t 1000000000
  let days := Int.fdiv sec 86400
  let sod := (sec - days * 86400).toNat
  let ymd := civilFromDays days
  let wd := ((days + 4).emod 7).toNat
  weekdayName wd ++ ", " ++ pad2 ymd.2.2 ++ " " ++ monthName ymd.2.1 ++ " " ++
    toString ymd.1 ++ " " ++ pad2 (sod / 3600) ++ ":" ++ pad2 (sod % 3600 / 60) ++
    ":" ++ pad2 (sod % 60) ++ " GMT"

/-- `setLastModified` (lines 226-230). -/
def setLastModified (w : RW) (modtime : Time) : RW :=
  if isZeroTime modtime then w
  else { w with header := headerSet w.header "Last-Modified" (formatHTTPTime modtime) }

/-! ## Error responses (lines 158-183) -/

/-- `toHTTPError` (lines 163-172): a non-specific message and status for
a filesystem error; never the raw OS error text. -/
def toHTTPError : FSErr → String × Nat
  | .notExist => ("404 page not found", 404)
  | .permission => ("403 Forbidden", 403)
  | .other _ => ("500 Internal Server Error", 500)

/-- `Error` (lines 178-183): plain-text error reply.  `fmt.Fprintln`
appends a newline to the message. -/
def Error (w : RW) (msg : String) (code : Nat) : RW :=
  let w := { w with header := headerSet w.header "Content-Type" "text/plain; charset=utf-8" }
  let w := { w with header := headerSet w.header "X-Content-Type-Options" "nosniff" }
  let w := w.writeHeader code
  w.write (msg ++ "\n")

/-! ## HTML escaping and URL escaping for directory listings -/

/-- One entry of `htmlReplacer` (lines 28-36); all five patterns are
single characters, so the replacer is a character map. -/
def htmlEscapeChar (c : Char) : String :=
  if c = '&' then "&amp;"
  else if c = '<' then "&lt;"
  else if c = '>' then "&gt;"
  else if c = Char.ofNat 34 then "&#34;"
  else if c = Char.ofNat 39 then "&#39;"
  else String.singleton c

/-- `htmlReplacer.Replace` (lines 28-36). -/
def htmlReplace (s : String) : String := String.join (s.data.map htmlEscapeChar)

/-- A byte Go's `net/url` leaves unescaped in path mode (`shouldEscape`
with `encodePath`): alphanumerics, `-_.~`, and the reserved characters
`$&+,/:;=@` (everything else, including `?` and `#`, is escaped). -/
def urlByteUnescaped (b : Nat) : Bool :=
  (65 ≤ b && b ≤ 90) || (97 ≤ b && b ≤ 122) || (48 ≤ b && b ≤ 57) ||
    ("-_.~$&+,/:;=@".data.map Char.toNat).contains b

def hexDigit (n : Nat) : Char :=
  if n < 10 then Char.ofNat (48 + n) else Char.ofNat (55 + n)

def percentByte (b : Nat) : List Char := ['%', hexDigit (b / 16), hexDigit (b % 16)]

/-- UTF-8 encoding of a character, as byte values. -/
def utf8Bytes (c : Char) : List Nat :=
  let n := c.toNat
  if n < 0x80 then [n]
  else if n < 0x800 then [0xC0 + n / 0x40, 0x80 + n % 0x40]
  else if n < 0x10000 then
    [0xE0 + n / 0x1000, 0x80 + n / 0x40 % 0x40, 0x80 + n % 0x40]
  else
    [0xF0 + n / 0x40000, 0x80 + n / 0x1000 % 0x40, 0x80 + n / 0x40 % 0x40,
      0x80 + n % 0x40]

def urlEscapeByte (b : Nat) : List Char :=
  if urlByteUnescaped b then [Char.ofNat b] else percentByte b

/-- `url.escape(s, encodePath)`: percent-encoding of a URL path. -/
def urlEscapePath (s : String) : String :=
  ⟨(s.data.map (fun c => ((utf8Bytes c).map urlEscapeByte).flatten)).flatten⟩

/-- `url.URL{Path: name}.String()` (used at line 251-252): the escaped
path, prefixed by `./` when the first segment contains a `:` (which would
otherwise read as a scheme). -/
def urlString (name : String) : String :=
  let p := urlEscapePath name
  if (p.data.takeWhile (fun c => c ≠ '/')).contains ':' then "./" ++ p else p

/-! ## Directory listing (lines 232-255) -/

/-- The display name (line 244-247: directories get a trailing `/`) of a
directory child. -/
def dispName (d : FileInfo) : String := d.name ++ (if d.isDir then "/" else "")

/-- One rendered line of the listing (line 252). -/
def anchorLine (d : FileInfo) : String :=
  "<a href=\"" ++ urlString (dispName d) ++ "\">" ++ htmlReplace (dispName d) ++ "</a>\n"

/-- The exclusion rules installed by src/main.go lines 12-16: regexps
`^\.git`, `^\.vscode`, `^\.idea`, i.e. prefix matching on the entry name.
Modelled from the spec: the `Dir`/pattern-matching code these regexps are
passed to is not under src/, only this caller is; per the spec the rules
decide "whether an entry is hidden from listings". -/
def midserveExcluded (name : String) : Bool :=
  goStartsWith name ".git" || goStartsWith name ".vscode" || goStartsWith name ".idea"

/-- Go `<` on strings: lexicographic byte order, which for valid UTF-8
equals lexicographic codepoint order on the character lists. -/
def goStrLt : List Char → List Char → Bool
  | [], [] => false
  | [], _ :: _ => true
  | _ :: _, [] => false
  | a :: as, b :: bs => if a < b then true else if b < a then false else goStrLt as bs

/-- The comparator of line 239: `dirs[i].Name() < dirs[j].Name()`. -/
def goLess (a b : FileInfo) : Bool := goStrLt a.name.data b.name.data

/-- The children kept and their order: sorted by name (line 239,
`sort.Slice` with byte-order `<`, whose postcondition is adjacent pairs
with `¬ less (j, i)`), filtered by the exclusion predicate.
Modelled from the spec: the filtering step ("filtering out entries
matched by the Exclusion Predicate", §4.3) is in the repository code
that is missing from src/; sorting is line 239 of the source. -/
def dirListEntries (excluded : String → Bool) (dirs : List FileInfo) : List FileInfo :=
  List.insertionSort (fun a b => goLess b a = false)
    (dirs.filter (fun d => !excluded d.name))

/-- `dirList` (lines 232-255).  The `logf` call on a read error goes to
the operator log, not the response, and is not modelled. -/
def dirList (excluded : String → Bool) (f : File) (w : RW) : RW :=
  match f.readdir with
  | .error _ => Error w "Error reading directory" 500
  | .ok dirs =>
    let out := dirListEntries excluded dirs
    let w := { w with header := headerSet w.header "Content-Type" "text/html; charset=utf-8" }
    let w := w.write "<pre>\n"
    let w := out.foldl (fun w d => w.write (anchorLine d)) w
    w.write "</pre>\n"

/-! ## Redirects, content delivery, and the dispatcher (lines 57-156) -/

/-- `localRedirect` (lines 150-156): 301 with a relative `Location`,
preserving the query string. -/
def localRedirect (r : Request) (newPath : String) (w : RW) : RW :=
  let np := if r.rawQuery ≠ "" then newPath ++ "?" ++ r.rawQuery else newPath
  RW.writeHeader { w with header := headerSet w.header "Location" np } 301

/-- The hand-off to the external `http.ServeContent` primitive (line 145).
Per spec §4.5 the core's obligation is to pass the resolved entry's base
name and modification time; `ServeContent` is outside this repository and
writes no redirect. -/
def ServeContent (name : String) (modtime : Time) (w : RW) : RW :=
  { w with delegated := some (name, modtime) }

/-- The index-file path tried inside a directory (line 119). -/
def indexFor (name : String) : String := goTrimSuffix name "/" ++ "/index.html"

/-- The tail of `serveFile` (lines 132-145): after the optional index
substitution, either render the directory (with the conditional check
against its modification time) or delegate to content delivery. -/
def serveFileFinal (excluded : String → Bool) (r : Request) (d : FileInfo)
    (f : File) (w : RW) : RW :=
  if d.isDir then
    if checkIfModifiedSince r d.modtime = .condFalse then writeNotModified w
    else dirList excluded f (setLastModified w d.modtime)
  else ServeContent d.name d.modtime w

/-- `serveFile` (lines 67-146). -/
def serveFile (excluded : String → Bool) (fs : FS) (r : Request) (name : String)
    (redirect : Bool) (w : RW) : RW :=
  -- lines 73-76: redirect .../index.html to ./ before anything else
  if goEndsWith r.urlPath "/index.html" then localRedirect r "./" w
  else
    match fs name with
    | .error err => Error w (toHTTPError err).1 (toHTTPError err).2
    | .ok f =>
      match f.stat with
      | .error err => Error w (toHTTPError err).1 (toHTTPError err).2
      | .ok d =>
        -- lines 93-108: canonical trailing-slash redirects
        if redirect ∧ d.isDir = true ∧ goEndsWith r.urlPath "/" = false then
          localRedirect r (goPathBase r.urlPath ++ "/") w
        else if redirect ∧ d.isDir = false ∧ goEndsWith r.urlPath "/" = true then
          localRedirect r ("../" ++ goPathBase r.urlPath) w
        else
          if d.isDir then
            -- lines 111-116: directory without trailing slash
            if r.urlPath = "" ∨ goEndsWith r.urlPath "/" = false then
              localRedirect r (goPathBase r.urlPath ++ "/") w
            else
              -- lines 118-129: use index.html for the directory, if present
              match fs (indexFor name) with
              | .ok ff =>
                match ff.stat with
                | .ok dd => serveFileFinal excluded r dd ff w
                | .error _ => serveFileFinal excluded r d f w
              | .error _ => serveFileFinal excluded r d f w
          else serveFileFinal excluded r d f w

/-- The path rooting done by `fileHandler.ServeHTTP` (lines 58-62). -/
def ensureRooted (p : String) : String :=
  if goStartsWith p "/" then p else "/" ++ p

/-- `fileHandler.ServeHTTP` (lines 57-64). -/
def fileHandlerServeHTTP (excluded : String → Bool) (fs : FS) (r : Request)
    (w : RW) : RW :=
  let upath := ensureRooted r.urlPath
  serveFile excluded fs { r with urlPath := upath } (goPathClean upath) true w

/-! # Claims -/

/-- C2: the precondition evaluator returns no-precondition
(`condNone`) exactly when the method is neither GET nor HEAD, or the
`If-Modified-Since` header is absent or unparsable, or the modification
time is the zero value or the Unix epoch sentinel; otherwise it returns
satisfied (`condFalse`, content unchanged) when the modification time
truncated to one-second resolution is at or before the header time, and
not-satisfied (`condTrue`) when it is after.  In particular, for GET with
header time T and truncated modtime exactly T it is satisfied, for modtime
one second later not-satisfied, and for POST it is no-precondition
regardless of times. -/
theorem claim_C2_precondition (r : Request) (m : Time) :
    (checkIfModifiedSince r m = .condNone ↔
      ((r.method ≠ "GET" ∧ r.method ≠ "HEAD") ∨ r.ims = .absent ∨
        r.ims = .malformed ∨ isZeroTime m = true))
    ∧ (∀ t : Time, (r.method = "GET" ∨ r.method = "HEAD") → r.ims = .given t →
        isZeroTime m = false →
        checkIfModifiedSince r m =
          (if truncSec m ≤ t then .condFalse else .condTrue))
    ∧ checkIfModifiedSince ⟨"GET", "/", "", .given 1000000000⟩ 1000000000 = .condFalse
    ∧ checkIfModifiedSince ⟨"GET", "/", "", .given 1000000000⟩ 2000000000 = .condTrue
    ∧ (∀ ims p q, checkIfModifiedSince ⟨"POST", p, q, ims⟩ m = .condNone) := by
  obtain ⟨method, p, q, ims⟩ := r
  refine ⟨?_, ?_, by decide, by decide, ?_⟩
  · unfold checkIfModifiedSince
    simp only
    split_ifs with h1 h2
    · exact iff_of_true rfl (Or.inl h1)
    · rcases h2 with h2 | h2
      · exact iff_of_true rfl (Or.inr (Or.inl h2))
      · exact iff_of_true rfl (Or.inr (Or.inr (Or.inr h2)))
    · cases ims with
      | absent => exact absurd (Or.inl rfl) h2
      | malformed => exact iff_of_true rfl (Or.inr (Or.inr (Or.inl rfl)))
      | given t =>
        refine iff_of_false ?_ ?_
        · show ¬((if truncSec m < t ∨ truncSec m = t then condResult.condFalse
            else condResult.condTrue) = condResult.condNone)
          intro hc
          by_cases h : truncSec m < t ∨ truncSec m = t
          · rw [if_pos h] at hc
            exact absurd hc (by decide)
          · rw [if_neg h] at hc
            exact absurd hc (by decide)
        · intro hc
          rcases hc with hc | hc | hc | hc
          · exact h1 hc
          · exact absurd hc (by simp)
          · exact absurd hc (by simp)
          · exact h2 (Or.inr hc)
  · intro t hmeth hims hz
    subst hims
    unfold checkIfModifiedSince
    simp only
    rw [if_neg (by tauto), if_neg (by simp [hz])]
    simp only [le_iff_lt_or_eq]
  · intro ims p' q'
    unfold checkIfModifiedSince
    simp

/-- Closed witness for `claim_C2_precondition`, discharging its inner
hypotheses at GET with header time 10^9 ns and modtime 10^9 ns. -/
theorem claim_C2_precondition_witness :
    checkIfModifiedSince ⟨"GET", "/", "", .given 1000000000⟩ 1000000000 =
      (if truncSec 1000000000 ≤ (1000000000 : Time) then .condFalse else .condTrue) :=
  (claim_C2_precondition ⟨"GET", "/", "", .given 1000000000⟩ 1000000000).2.1
    1000000000 (Or.inl rfl) rfl (by decide)

/-- Appending a leading `/` preserves a suffix of the path. -/
theorem goEndsWith_ensureRooted (p s : String) (h : goEndsWith p s = true) :
    goEndsWith (ensureRooted p) s = true := by
  unfold ensureRooted
  split
  · exact h
  · unfold goEndsWith at *
    simp only [decide_eq_true_eq] at *
    have hd : ("/" ++ p).data = '/' :: p.data := rfl
    rw [hd]
    exact h.trans (List.suffix_cons '/' p.data)

/-- C5: for every request whose URL path ends in `/index.html`, the
response is a permanent redirect (301) whose `Location` is `./` with any
query string preserved — literally `GET /a/index.html` yields
`Location: ./` — and this rule fires first, for every filesystem and
whatever the trailing-slash situation is (it is terminal on match, before
the directory/file trailing-slash rules, which sit behind it in
`serveFile`). -/
theorem claim_C5_index_html_redirect (excluded : String → Bool) (fs : FS)
    (r : Request) (name : String) (b : Bool) :
    goEndsWith r.urlPath "/index.html" = true →
    serveFile excluded fs r name b RW.init = localRedirect r "./" RW.init
    ∧ (serveFile excluded fs r name b RW.init).status = 301
    ∧ (serveFile excluded fs r name b RW.init).header "Location" =
        [if r.rawQuery ≠ "" then "./" ++ "?" ++ r.rawQuery else "./"] := by
  intro h
  unfold serveFile
  rw [if_pos h]
  refine ⟨rfl, ?_, ?_⟩
  · rfl
  · simp [localRedirect, headerSet, RW.writeHeader, RW.init]

/-- Closed witness for `claim_C5_index_html_redirect`: the literal
example `GET /a/index.html` (no query) against an empty filesystem. -/
theorem claim_C5_index_html_redirect_witness :
    (serveFile midserveExcluded (fun _ => .error .notExist)
        ⟨"GET", "/a/index.html", "", .absent⟩ "/a/index.html" true RW.init).header
      "Location" =
      [if ("" : String) ≠ "" then "./" ++ "?" ++ "" else "./"] :=
  (claim_C5_index_html_redirect midserveExcluded (fun _ => .error .notExist)
    ⟨"GET", "/a/index.html", "", .absent⟩ "/a/index.html" true (by decide)).2.2

/-- C10: the `/index.html` redirect is issued before the filesystem is
consulted — `serveFile` tests the suffix before `fs.Open` — so it happens
for every filesystem, even one in which the file and all its ancestors
are missing, and such a request can never produce a 404, 403 or 500
error response. -/
theorem claim_C10_index_redirect_before_fs (excluded : String → Bool) (fs : FS)
    (r : Request) :
    goEndsWith r.urlPath "/index.html" = true →
    (fileHandlerServeHTTP excluded fs r RW.init).status = 301
    ∧ (fileHandlerServeHTTP excluded fs r RW.init).status ≠ 404
    ∧ (fileHandlerServeHTTP excluded fs r RW.init).status ≠ 403
    ∧ (fileHandlerServeHTTP excluded fs r RW.init).status ≠ 500 := by
  intro h
  have h' : goEndsWith (ensureRooted r.urlPath) "/index.html" = true :=
    goEndsWith_ensureRooted _ _ h
  unfold fileHandlerServeHTTP serveFile
  simp only [h', if_pos]
  exact ⟨rfl, (by decide : (301 : Nat) ≠ 404), (by decide : (301 : Nat) ≠ 403),
    (by decide : (301 : Nat) ≠ 500)⟩

/-- Closed witness for `claim_C10_index_redirect_before_fs`: a request
for `/missing/index.html` against a filesystem with no entries at all
still answers 301, not an error. -/
theorem claim_C10_index_redirect_before_fs_witness :
    (fileHandlerServeHTTP midserveExcluded (fun _ => .error .notExist)
        ⟨"GET", "/missing/index.html", "", .absent⟩ RW.init).status = 301 :=
  (claim_C10_index_redirect_before_fs midserveExcluded (fun _ => .error .notExist)
    ⟨"GET", "/missing/index.html", "", .absent⟩ (by decide)).1

/-- A filesystem with a directory at `/a/b` (and at `/a`), used to probe
the trailing-slash redirect for a nested directory. -/
def fsNested : FS := fun p =>
  if p = "/a/b" then .ok ⟨.ok ⟨"b", true, 0, 0⟩, .ok []⟩
  else if p = "/a" then .ok ⟨.ok ⟨"a", true, 0, 0⟩, .ok []⟩
  else .error .notExist

/-- Counterexample to C3 as stated: for the nested directory `/a/b`
requested as `GET /a/b?x=1`, the `Location` header is `b/?x=1` — the last
path segment only (`path.Base`), not `p + "/"` (`/a/b/?x=1`, or
`a/b/?x=1` on the reading without the leading slash). -/
theorem claim_C3_counterexample :
    (fileHandlerServeHTTP midserveExcluded fsNested
        ⟨"GET", "/a/b", "x=1", .absent⟩ RW.init).header "Location" = ["b/?x=1"]
    ∧ ("b/?x=1" : String) ≠ "/a/b/?x=1"
    ∧ ("b/?x=1" : String) ≠ "a/b/?x=1" := by
  exact ⟨by decide, by decide, by decide⟩

/-- C3 (amended): for every request whose resolved entry is a directory
and whose path `p` does not end in `/`, the response is a 301 redirect
whose `Location` is `path.Base(p) + "/"` with any query string preserved
— a relative reference that resolves against `p` to `p + "/"`.  For the
top-level literal example `GET /docs?x=1` this is exactly
`Location: docs/?x=1`. -/
theorem claim_C3_dir_slash_redirect (excluded : String → Bool) (fs : FS)
    (r : Request) (name : String) (w : RW) (f : File) (d : FileInfo) :
    r.urlPath ≠ "" →
    goEndsWith r.urlPath "/index.html" = false →
    fs name = .ok f → f.stat = .ok d → d.isDir = true →
    goEndsWith r.urlPath "/" = false →
    serveFile excluded fs r name true w =
      localRedirect r (goPathBase r.urlPath ++ "/") w
    ∧ (serveFile excluded fs r name true RW.init).status = 301
    ∧ (serveFile excluded fs r name true RW.init).header "Location" =
        [if r.rawQuery ≠ "" then (goPathBase r.urlPath ++ "/") ++ "?" ++ r.rawQuery
         else goPathBase r.urlPath ++ "/"] := by
  intro _ hidx hopen hstat hdir hslash
  have hred : ∀ w' : RW, serveFile excluded fs r name true w' =
      localRedirect r (goPathBase r.urlPath ++ "/") w' := by
    intro w'
    unfold serveFile
    rw [hidx]
    simp only [Bool.false_eq_true, if_false, hopen, hstat]
    rw [if_pos ⟨trivial, hdir, hslash⟩]
  refine ⟨hred w, ?_, ?_⟩
  · rw [hred RW.init]
    rfl
  · rw [hred RW.init]
    simp [localRedirect, headerSet, RW.writeHeader, RW.init]

/-- Closed witness for `claim_C3_dir_slash_redirect`: the literal example
`GET /docs?x=1` against a filesystem with directory `docs` yields
`Location: docs/?x=1`. -/
theorem claim_C3_dir_slash_redirect_witness :
    (serveFile midserveExcluded
        (fun p => if p = "/docs" then .ok ⟨.ok ⟨"docs", true, 0, 0⟩, .ok []⟩
          else .error .notExist)
        ⟨"GET", "/docs", "x=1", .absent⟩ "/docs" true RW.init).header "Location" =
      [if ("x=1" : String) ≠ "" then (goPathBase "/docs" ++ "/") ++ "?" ++ "x=1"
       else goPathBase "/docs" ++ "/"] :=
  (claim_C3_dir_slash_redirect midserveExcluded
    (fun p => if p = "/docs" then .ok ⟨.ok ⟨"docs", true, 0, 0⟩, .ok []⟩
      else .error .notExist)
    ⟨"GET", "/docs", "x=1", .absent⟩ "/docs" RW.init ⟨.ok ⟨"docs", true, 0, 0⟩, .ok []⟩
    ⟨"docs", true, 0, 0⟩ (by decide) (by decide) (by decide) rfl rfl (by decide)).2.2

/-! Status bookkeeping lemmas for the non-redirecting tail of `serveFile`. -/

theorem write_status_of_zero (w : RW) (s : String) (h : w.status = 0) :
    (w.write s).status = 200 := by
  unfold RW.write RW.writeHeader
  simp [h]

theorem write_status_of_ne (w : RW) (s : String) (h : w.status ≠ 0) :
    (w.write s).status = w.status := by
  unfold RW.write RW.writeHeader
  simp [h]

theorem foldl_write_status (g : FileInfo → String) (l : List FileInfo) (w : RW)
    (h : w.status ≠ 0) :
    (l.foldl (fun w d => w.write (g d)) w).status = w.status := by
  induction l generalizing w with
  | nil => rfl
  | cons d l ih =>
    simp only [List.foldl_cons]
    rw [ih _ (by rw [write_status_of_ne w _ h]; exact h), write_status_of_ne w _ h]

theorem setLastModified_status (w : RW) (t : Time) :
    (setLastModified w t).status = w.status := by
  unfold setLastModified
  split <;> rfl

/-- `dirList` answers 500 (read error) or 200 (listing). -/
theorem dirList_status (excluded : String → Bool) (f : File) (w : RW)
    (h : w.status = 0) :
    (dirList excluded f w).status = 500 ∨ (dirList excluded f w).status = 200 := by
  unfold dirList
  cases hr : f.readdir with
  | error e =>
    left
    unfold Error RW.write RW.writeHeader
    simp [h]
  | ok dirs =>
    right
    simp only
    have h1 : (RW.write { w with
        header := headerSet w.header "Content-Type" "text/html; charset=utf-8" }
        "<pre>\n").status = 200 := write_status_of_zero _ _ h
    rw [write_status_of_ne, foldl_write_status, h1]
    · rw [h1]; decide
    · rw [foldl_write_status, h1]
      · decide
      · rw [h1]; decide

/-- The tail of `serveFile` (304 / directory listing / content delivery)
never writes a redirect status. -/
theorem serveFileFinal_status_ne_301 (excluded : String → Bool) (r : Request)
    (d : FileInfo) (f : File) (w : RW) (h : w.status = 0) :
    (serveFileFinal excluded r d f w).status ≠ 301 := by
  unfold serveFileFinal
  split
  · split
    · unfold writeNotModified RW.writeHeader
      simp [h]
    · have h2 : (setLastModified w d.modtime).status = 0 := by
        rw [setLastModified_status]; exact h
      rcases dirList_status excluded f _ h2 with h3 | h3 <;> simp [h3]
  · simp [ServeContent, h]

/-- C9 (amended): an already-canonical request — trailing slash present
exactly when the resolved entry is a directory, and no `/index.html`
suffix — produces no redirect.  (The claim's further "at most one
redirect hop from any request" gloss is refuted separately: a
non-canonical request can need two hops.) -/
theorem claim_C9_canonical_no_redirect (excluded : String → Bool) (fs : FS)
    (r : Request) (name : String) (f : File) (d : FileInfo) :
    r.urlPath ≠ "" →
    goEndsWith r.urlPath "/index.html" = false →
    fs name = .ok f → f.stat = .ok d →
    d.isDir = goEndsWith r.urlPath "/" →
    (serveFile excluded fs r name true RW.init).status ≠ 301 := by
  intro hne0 hidx hopen hstat hcanon
  unfold serveFile
  rw [hidx]
  simp only [Bool.false_eq_true, if_false, hopen, hstat]
  cases hdir : d.isDir with
  | true =>
    have hslash : goEndsWith r.urlPath "/" = true := by rw [← hcanon, hdir]
    have hne : r.urlPath ≠ "" := by
      intro hu
      rw [hu] at hslash
      exact absurd hslash (by decide)
    rw [if_neg (by simp [hslash]), if_neg (by simp), if_pos rfl,
      if_neg (by simp [hslash, hne])]
    cases hff : fs (indexFor name) with
    | error e => exact serveFileFinal_status_ne_301 excluded r d f RW.init rfl
    | ok ff =>
      simp only
      cases hdd : ff.stat with
      | error e => exact serveFileFinal_status_ne_301 excluded r d f RW.init rfl
      | ok dd => exact serveFileFinal_status_ne_301 excluded r dd ff RW.init rfl
  | false =>
    have hslash : goEndsWith r.urlPath "/" = false := by rw [← hcanon, hdir]
    rw [if_neg (by simp), if_neg (by simp [hslash]), if_neg (by simp)]
    exact serveFileFinal_status_ne_301 excluded r d f RW.init rfl

/-- Closed witness for `claim_C9_canonical_no_redirect`: the canonical
request `GET /d/` for directory `/d` answers without a redirect. -/
theorem claim_C9_canonical_no_redirect_witness :
    (serveFile midserveExcluded
        (fun p => if p = "/d" then .ok ⟨.ok ⟨"d", true, 0, 0⟩, .ok []⟩
          else .error .notExist)
        ⟨"GET", "/d/", "", .absent⟩ "/d" true RW.init).status ≠ 301 :=
  claim_C9_canonical_no_redirect midserveExcluded
    (fun p => if p = "/d" then .ok ⟨.ok ⟨"d", true, 0, 0⟩, .ok []⟩
      else .error .notExist)
    ⟨"GET", "/d/", "", .absent⟩ "/d" ⟨.ok ⟨"d", true, 0, 0⟩, .ok []⟩
    ⟨"d", true, 0, 0⟩ (by decide) (by decide) rfl rfl (by decide)

/-- A filesystem whose `/a` is a regular file. -/
def fsFileA : FS := fun p =>
  if p = "/a" then .ok ⟨.ok ⟨"a", false, 0, 0⟩, .ok []⟩ else .error .notExist

/-- Counterexample to C9's "at most one redirect hop" gloss: with `/a` a
regular file, `GET /a/index.html` redirects to `./` — which resolves
against `/a/index.html` to `/a/` — and the follow-up request `GET /a/`
redirects again (to `../a`).  Two hops are needed before the canonical
fixed point `/a` is reached. -/
theorem claim_C9_counterexample :
    (fileHandlerServeHTTP midserveExcluded fsFileA
        ⟨"GET", "/a/index.html", "", .absent⟩ RW.init).status = 301
    ∧ (fileHandlerServeHTTP midserveExcluded fsFileA
        ⟨"GET", "/a/index.html", "", .absent⟩ RW.init).header "Location" = ["./"]
    ∧ (fileHandlerServeHTTP midserveExcluded fsFileA
        ⟨"GET", "/a/", "", .absent⟩ RW.init).status = 301
    ∧ (fileHandlerServeHTTP midserveExcluded fsFileA
        ⟨"GET", "/a/", "", .absent⟩ RW.init).header "Location" = ["../a"] := by
  exact ⟨by decide, by decide, by decide, by decide⟩

/-- Pointwise effect of `writeNotModified` on the headers: `Content-Type`
and `Content-Length` are removed, `Last-Modified` is removed exactly when
an `Etag` header is present, everything else is untouched. -/
theorem writeNotModified_header (w : RW) (k : String) :
    (writeNotModified w).header k =
      (if k = "Content-Type" then []
       else if k = "Content-Length" then []
       else if k = "Last-Modified" ∧ headerGet w.header "Etag" ≠ "" then []
       else w.header k) := by
  have hetag : headerGet (headerDel (headerDel w.header "Content-Type")
      "Content-Length") "Etag" = headerGet w.header "Etag" := by
    unfold headerGet headerDel
    rw [if_neg (by decide), if_neg (by decide)]
  have hbase : (writeNotModified w).header =
      (if headerGet w.header "Etag" ≠ "" then
        headerDel (headerDel (headerDel w.header "Content-Type")
          "Content-Length") "Last-Modified"
      else headerDel (headerDel w.header "Content-Type") "Content-Length") := by
    unfold writeNotModified RW.writeHeader
    dsimp only
    rw [hetag]
    split <;> rfl
  rw [hbase]
  by_cases he : headerGet w.header "Etag" ≠ ""
  · rw [if_pos he]
    unfold headerDel
    by_cases k3 : k = "Last-Modified"
    · subst k3
      simp [he]
    · rw [if_neg k3]
      by_cases k2 : k = "Content-Length"
      · subst k2; simp
      · rw [if_neg k2]
        by_cases k1 : k = "Content-Type"
        · subst k1; simp
        · rw [if_neg k1, if_neg k1, if_neg k2, if_neg (by exact fun hy => k3 hy.1)]
  · rw [if_neg he]
    unfold headerDel
    by_cases k2 : k = "Content-Length"
    · subst k2; simp
    · rw [if_neg k2]
      by_cases k1 : k = "Content-Type"
      · subst k1; simp
      · rw [if_neg k1, if_neg k1, if_neg k2, if_neg (by exact fun hy => he hy.2)]

/-- C8: when the conditional check against a directory's own modification
time is satisfied, the response is a 304 with no body written, the
`Content-Type` and `Content-Length` headers are removed, `Last-Modified`
is removed exactly when an `Etag` header is already present, and no other
header is touched by this step. -/
theorem claim_C8_not_modified_headers (excluded : String → Bool) (fs : FS)
    (r : Request) (name : String) (w : RW) (f : File) (d : FileInfo) (e : FSErr)
    (k : String) :
    goEndsWith r.urlPath "/index.html" = false →
    fs name = .ok f → f.stat = .ok d → d.isDir = true →
    goEndsWith r.urlPath "/" = true →
    fs (indexFor name) = .error e →
    checkIfModifiedSince r d.modtime = .condFalse →
    serveFile excluded fs r name true w = writeNotModified w
    ∧ (writeNotModified w).status = (if w.status = 0 then 304 else w.status)
    ∧ (writeNotModified w).body = w.body
    ∧ (writeNotModified w).header k =
        (if k = "Content-Type" then []
         else if k = "Content-Length" then []
         else if k = "Last-Modified" ∧ headerGet w.header "Etag" ≠ "" then []
         else w.header k) := by
  intro hidx hopen hstat hdir hslash hindex hcond
  have hne : r.urlPath ≠ "" := by
    intro hu
    rw [hu] at hslash
    exact absurd hslash (by decide)
  refine ⟨?_, ?_, ?_, writeNotModified_header w k⟩
  · unfold serveFile
    rw [hidx]
    simp only [Bool.false_eq_true, if_false, hopen, hstat]
    rw [if_neg (by simp [hdir, hslash]), if_neg (by simp [hdir]), if_pos hdir,
      if_neg (by simp [hslash, hne]), hindex]
    unfold serveFileFinal
    rw [if_pos hdir, if_pos hcond]
  · unfold writeNotModified RW.writeHeader
    dsimp only
    split <;> simp_all
  · unfold writeNotModified RW.writeHeader
    dsimp only
    split <;> rfl

/-- Closed witness for `claim_C8_not_modified_headers`: directory `/d/`
with modtime 10^9 ns, `If-Modified-Since` at the same second, probed at
the untouched header key `X-Extra`. -/
theorem claim_C8_not_modified_headers_witness :
    serveFile midserveExcluded
        (fun p => if p = "/d" then .ok ⟨.ok ⟨"d", true, 1000000000, 0⟩, .ok []⟩
          else .error .notExist)
        ⟨"GET", "/d/", "", .given 1000000000⟩ "/d" true RW.init =
      writeNotModified RW.init
    ∧ (writeNotModified RW.init).status = (if RW.init.status = 0 then 304 else RW.init.status)
    ∧ (writeNotModified RW.init).body = RW.init.body
    ∧ (writeNotModified RW.init).header "X-Extra" =
        (if ("X-Extra" : String) = "Content-Type" then []
         else if ("X-Extra" : String) = "Content-Length" then []
         else if ("X-Extra" : String) = "Last-Modified" ∧
            headerGet RW.init.header "Etag" ≠ "" then []
         else RW.init.header "X-Extra") :=
  claim_C8_not_modified_headers midserveExcluded
    (fun p => if p = "/d" then .ok ⟨.ok ⟨"d", true, 1000000000, 0⟩, .ok []⟩
      else .error .notExist)
    ⟨"GET", "/d/", "", .given 1000000000⟩ "/d" RW.init
    ⟨.ok ⟨"d", true, 1000000000, 0⟩, .ok []⟩ ⟨"d", true, 1000000000, 0⟩
    .notExist "X-Extra" (by decide) rfl rfl rfl (by decide) (by decide) (by decide)

/-- A filesystem with a readable directory entry `/d` whose listing read
(`Readdir`) fails. -/
def fsDirReadErr : FS := fun p =>
  if p = "/d" then .ok ⟨.ok ⟨"d", true, 0, 0⟩, .error (.other "boom")⟩
  else .error .notExist

/-- Counterexample to C4 as stated: a directory-listing read failure
answers 500 with the fixed body `"Error reading directory\n"`, which does
not contain (let alone end with) the conventional phrase
`500 Internal Server Error`. -/
theorem claim_C4_counterexample :
    (fileHandlerServeHTTP midserveExcluded fsDirReadErr
        ⟨"GET", "/d/", "", .absent⟩ RW.init).status = 500
    ∧ (fileHandlerServeHTTP midserveExcluded fsDirReadErr
        ⟨"GET", "/d/", "", .absent⟩ RW.init).body = "Error reading directory\n"
    ∧ ¬("500 Internal Server Error".data <:+: (fileHandlerServeHTTP
        midserveExcluded fsDirReadErr
        ⟨"GET", "/d/", "", .absent⟩ RW.init).body.data) := by
  exact ⟨by decide, by decide, by decide⟩

/-- C4 (amended): failures of `Open`/`Stat` are mapped by `toHTTPError` to
exactly 404 `"404 page not found\n"`, 403 `"403 Forbidden\n"` or 500
`"500 Internal Server Error\n"` — a single plain-text line ending in the
conventional phrase, independent of the raw OS error text — while a
directory-listing read failure answers 500 with the fixed body
`"Error reading directory\n"`.  All error responses carry
`Content-Type: text/plain; charset=utf-8` and
`X-Content-Type-Options: nosniff`. -/
theorem claim_C4_error_responses (excluded : String → Bool) (fs : FS)
    (r : Request) (name : String) (err : FSErr) (f : File) (oserr : String)
    (w : RW) :
    goEndsWith r.urlPath "/index.html" = false →
    (fs name = .error err →
      serveFile excluded fs r name true w =
        Error w (toHTTPError err).1 (toHTTPError err).2)
    ∧ (fs name = .ok f → f.stat = .error err →
      serveFile excluded fs r name true w =
        Error w (toHTTPError err).1 (toHTTPError err).2)
    ∧ (f.readdir = .error err →
      dirList excluded f w = Error w "Error reading directory" 500)
    ∧ toHTTPError .notExist = ("404 page not found", 404)
    ∧ toHTTPError .permission = ("403 Forbidden", 403)
    ∧ toHTTPError (.other oserr) = ("500 Internal Server Error", 500)
    ∧ (∀ msg code, (Error w msg code).body = w.body ++ (msg ++ "\n"))
    ∧ (∀ msg code, code ≠ 0 → w.status = 0 → (Error w msg code).status = code)
    ∧ (∀ msg code, (Error w msg code).header "Content-Type" =
        ["text/plain; charset=utf-8"])
    ∧ (∀ msg code, (Error w msg code).header "X-Content-Type-Options" =
        ["nosniff"]) := by
  intro hidx
  refine ⟨?_, ?_, ?_, rfl, rfl, rfl, ?_, ?_, ?_, ?_⟩
  · intro hopen
    unfold serveFile
    rw [hidx]
    simp only [Bool.false_eq_true, if_false, hopen]
  · intro hopen hstat
    unfold serveFile
    rw [hidx]
    simp only [Bool.false_eq_true, if_false, hopen, hstat]
  · intro hrd
    unfold dirList
    rw [hrd]
  · intro msg code
    unfold Error RW.write RW.writeHeader
    dsimp only
    split <;> (try split) <;> rfl
  · intro msg code hc hw
    unfold Error RW.write RW.writeHeader
    dsimp only
    simp [hw, hc]
  · intro msg code
    unfold Error RW.write RW.writeHeader headerSet
    dsimp only
    split <;> (try split) <;> simp
  · intro msg code
    unfold Error RW.write RW.writeHeader headerSet
    dsimp only
    split <;> (try split) <;> simp

/-- Closed witness for `claim_C4_error_responses`: a missing path yields
exactly status 404 with body `404 page not found` plus newline. -/
theorem claim_C4_error_responses_witness :
    serveFile midserveExcluded (fun _ => .error .notExist)
        ⟨"GET", "/nope", "", .absent⟩ "/nope" true RW.init =
      Error RW.init (toHTTPError .notExist).1 (toHTTPError .notExist).2
    ∧ (Error RW.init "404 page not found" 404).body =
        RW.init.body ++ ("404 page not found" ++ "\n")
    ∧ (Error RW.init "404 page not found" 404).status = 404 := by
  have h := claim_C4_error_responses midserveExcluded (fun _ => .error .notExist)
    ⟨"GET", "/nope", "", .absent⟩ "/nope" .notExist ⟨.ok ⟨"", false, 0, 0⟩, .ok []⟩
    "" RW.init (by decide)
  exact ⟨h.1 rfl, h.2.2.2.2.2.2.1 "404 page not found" 404,
    h.2.2.2.2.2.2.2.1 "404 page not found" 404 (by decide) rfl⟩

/-- C7: each directory-listing child is rendered as one anchor whose
visible text is its name (with `/` appended for a directory) passed
through the five-character HTML replacer, and whose href is the same
display name encoded as a URL path — where `&` stays a literal ampersand
while reserved URL characters such as `?` and `#` are percent-encoded.
Concretely, a file named `a&<b>.txt` shows visible text
`a&amp;&lt;b&gt;.txt` with href `a&%3Cb%3E.txt`, and `q?d#f` gets href
`q%3Fd%23f`; a sample listing renders exactly these lines. -/
theorem claim_C7_listing_escapes :
    (∀ d : FileInfo, anchorLine d =
      "<a href=\"" ++ urlString (d.name ++ (if d.isDir then "/" else "")) ++
        "\">" ++ htmlReplace (d.name ++ (if d.isDir then "/" else "")) ++ "</a>\n")
    ∧ htmlReplace "a&<b>.txt" = "a&amp;&lt;b&gt;.txt"
    ∧ urlString "a&<b>.txt" = "a&%3Cb%3E.txt"
    ∧ urlString "q?d#f" = "q%3Fd%23f"
    ∧ urlEscapeByte '&'.toNat = ['&']
    ∧ urlEscapeByte '?'.toNat = ['%', '3', 'F']
    ∧ urlEscapeByte '#'.toNat = ['%', '2', '3']
    ∧ htmlReplace "plain-file.txt" = "plain-file.txt"
    ∧ (dirList (fun _ => false) ⟨.ok ⟨"d", true, 0, 0⟩,
        .ok [⟨"q?d", true, 0, 0⟩, ⟨"a&<b>.txt", false, 0, 0⟩]⟩ RW.init).body =
      "<pre>\n<a href=\"a&%3Cb%3E.txt\">a&amp;&lt;b&gt;.txt</a>\n" ++
      "<a href=\"q%3Fd/\">q?d/</a>\n</pre>\n" :=
  ⟨fun _ => rfl, by decide, by decide, by decide, by decide, by decide, by decide,
    by decide, by decide⟩

/-! ## Order lemmas for the listing comparator -/

theorem goStrLt_cons_nil (x : Char) (xs : List Char) :
    goStrLt (x :: xs) [] = false := rfl

theorem goStrLt_cons_iff (x y : Char) (xs ys : List Char) :
    goStrLt (x :: xs) (y :: ys) = true ↔
      x < y ∨ (x = y ∧ goStrLt xs ys = true) := by
  show (if x < y then true else if y < x then false else goStrLt xs ys) = true ↔ _
  by_cases hxy : x < y
  · rw [if_pos hxy]
    exact iff_of_true rfl (Or.inl hxy)
  · rw [if_neg hxy]
    by_cases hyx : y < x
    · rw [if_pos hyx]
      refine iff_of_false Bool.false_ne_true ?_
      rintro (h | ⟨h, _⟩)
      · exact hxy h
      · rw [h] at hyx
        exact lt_irrefl y hyx
    · rw [if_neg hyx]
      have heq : x = y := le_antisymm (not_lt.1 hyx) (not_lt.1 hxy)
      constructor
      · intro h
        exact Or.inr ⟨heq, h⟩
      · rintro (h | ⟨_, h⟩)
        · exact absurd h hxy
        · exact h

theorem goStrLt_trichotomy (a : List Char) : ∀ b : List Char,
    goStrLt a b = true ∨ a = b ∨ goStrLt b a = true := by
  induction a with
  | nil =>
    intro b
    cases b with
    | nil => exact Or.inr (Or.inl rfl)
    | cons y ys => exact Or.inl rfl
  | cons x xs ih =>
    intro b
    cases b with
    | nil => exact Or.inr (Or.inr rfl)
    | cons y ys =>
      rcases lt_trichotomy x y with h | h | h
      · exact Or.inl ((goStrLt_cons_iff x y xs ys).2 (Or.inl h))
      · rcases ih ys with h2 | h2 | h2
        · exact Or.inl ((goStrLt_cons_iff x y xs ys).2 (Or.inr ⟨h, h2⟩))
        · exact Or.inr (Or.inl (by rw [h, h2]))
        · exact Or.inr (Or.inr ((goStrLt_cons_iff y x ys xs).2 (Or.inr ⟨h.symm, h2⟩)))
      · exact Or.inr (Or.inr ((goStrLt_cons_iff y x ys xs).2 (Or.inl h)))

theorem goStrLt_asymm (a : List Char) : ∀ b : List Char,
    goStrLt a b = true → goStrLt b a = false := by
  induction a with
  | nil =>
    intro b h
    cases b with
    | nil => exact absurd h Bool.false_ne_true
    | cons y ys => exact rfl
  | cons x xs ih =>
    intro b h
    cases b with
    | nil => exact absurd h Bool.false_ne_true
    | cons y ys =>
      rcases (goStrLt_cons_iff x y xs ys).1 h with h1 | ⟨h1, h2⟩
      · rw [Bool.eq_false_iff]
        intro hc
        rcases (goStrLt_cons_iff y x ys xs).1 hc with hc1 | ⟨hc1, _⟩
        · exact absurd h1 (asymm hc1)
        · rw [hc1] at h1
          exact lt_irrefl x h1
      · rw [Bool.eq_false_iff]
        intro hc
        rcases (goStrLt_cons_iff y x ys xs).1 hc with hc1 | ⟨_, hc2⟩
        · rw [h1] at hc1
          exact lt_irrefl y hc1
        · have h3 := ih ys h2
          rw [hc2] at h3
          exact absurd h3 (by decide)

theorem goStrLt_trans (a : List Char) : ∀ b c : List Char,
    goStrLt a b = true → goStrLt b c = true → goStrLt a c = true := by
  induction a with
  | nil =>
    intro b c hab hbc
    cases b with
    | nil => exact absurd hab Bool.false_ne_true
    | cons y ys =>
      cases c with
      | nil => exact absurd hbc Bool.false_ne_true
      | cons z zs => exact rfl
  | cons x xs ih =>
    intro b c hab hbc
    cases b with
    | nil => exact absurd hab Bool.false_ne_true
    | cons y ys =>
      cases c with
      | nil => exact absurd hbc Bool.false_ne_true
      | cons z zs =>
        rcases (goStrLt_cons_iff x y xs ys).1 hab with h1 | ⟨h1, h2⟩ <;>
          rcases (goStrLt_cons_iff y z ys zs).1 hbc with g1 | ⟨g1, g2⟩
        · exact (goStrLt_cons_iff x z xs zs).2 (Or.inl (lt_trans h1 g1))
        · exact (goStrLt_cons_iff x z xs zs).2 (Or.inl (by rw [← g1]; exact h1))
        · exact (goStrLt_cons_iff x z xs zs).2 (Or.inl (by rw [h1]; exact g1))
        · exact (goStrLt_cons_iff x z xs zs).2
            (Or.inr ⟨h1.trans g1, ih ys zs h2 g2⟩)

/-- The sort's "not greater" relation on entries is total. -/
instance : IsTotal FileInfo (fun a b => goLess b a = false) := by
  constructor
  intro a b
  cases hb : goLess b a with
  | false => exact Or.inl rfl
  | true =>
    right
    unfold goLess at hb ⊢
    exact goStrLt_asymm _ _ hb

/-- The sort's "not greater" relation on entries is transitive. -/
instance : IsTrans FileInfo (fun a b => goLess b a = false) := by
  constructor
  intro a b c hab hbc
  unfold goLess at hab hbc ⊢
  rw [Bool.eq_false_iff]
  intro hca
  rcases goStrLt_trichotomy a.name.data b.name.data with h | h | h
  · have h4 := goStrLt_trans _ _ _ hca h
    rw [h4] at hbc
    exact absurd hbc (by decide)
  · rw [← h] at hbc
    rw [hca] at hbc
    exact absurd hbc (by decide)
  · rw [h] at hab
    exact absurd hab (by decide)

theorem write_body (w : RW) (s : String) : (w.write s).body = w.body ++ s := by
  unfold RW.write RW.writeHeader
  dsimp only
  split <;> rfl

/-- Concatenation of the rendered lines. -/
def concatLines (l : List String) : String := l.foldr (fun a b => a ++ b) ""

theorem foldl_write_body (g : FileInfo → String) (l : List FileInfo) (w : RW) :
    (l.foldl (fun w d => w.write (g d)) w).body = w.body ++ concatLines (l.map g) := by
  induction l generalizing w with
  | nil =>
    show w.body = w.body ++ ""
    exact (String.append_empty _).symm
  | cons d l ih =>
    simp only [List.foldl_cons, List.map_cons]
    rw [ih, write_body]
    show w.body ++ g d ++ concatLines (l.map g) =
      w.body ++ (g d ++ concatLines (l.map g))
    rw [String.append_assoc]

/-- C1: for a directory with no index file, the rendered listing body
consists exactly of the anchor lines of the directory's immediate
children that no exclusion rule matches (so a child `.git` is absent
under the rules of src/main.go), arranged in ascending lexical
case-sensitive byte order by name. -/
theorem claim_C1_dir_listing (excluded : String → Bool) (f : File)
    (dirs : List FileInfo) (w : RW) :
    f.readdir = .ok dirs →
    (dirListEntries excluded dirs).Perm (dirs.filter (fun d => !excluded d.name))
    ∧ List.Pairwise
        (fun a b => goStrLt a.name.data b.name.data = true ∨ a.name = b.name)
        (dirListEntries excluded dirs)
    ∧ (dirList excluded f w).body =
        w.body ++ ("<pre>\n" ++
          concatLines ((dirListEntries excluded dirs).map anchorLine) ++ "</pre>\n")
    ∧ (∀ d ∈ dirs, excluded d.name = true → d ∉ dirListEntries excluded dirs)
    ∧ midserveExcluded ".git" = true := by
  intro hrd
  have hperm : (dirListEntries excluded dirs).Perm
      (dirs.filter (fun d => !excluded d.name)) :=
    List.perm_insertionSort _ _
  refine ⟨hperm, ?_, ?_, ?_, by decide⟩
  · have hs := List.sorted_insertionSort (fun a b : FileInfo => goLess b a = false)
      (dirs.filter (fun d => !excluded d.name))
    refine List.Pairwise.imp ?_ hs
    intro a b hab
    unfold goLess at hab
    rcases goStrLt_trichotomy a.name.data b.name.data with h | h | h
    · exact Or.inl h
    · refine Or.inr (String.toList_inj.1 ?_)
      exact h
    · rw [h] at hab
      exact absurd hab (by decide)
  · unfold dirList
    rw [hrd]
    dsimp only
    rw [write_body, foldl_write_body, write_body]
    simp [String.append_assoc]
  · intro d hd hex hmem
    have hmem2 := (hperm.mem_iff).1 hmem
    rw [List.mem_filter] at hmem2
    rw [hex] at hmem2
    exact absurd hmem2.2 (by decide)

/-- Closed witness for `claim_C1_dir_listing`: a directory containing
`.git`, `b/` and `a.txt` lists exactly `a.txt` then `b/`. -/
theorem claim_C1_dir_listing_witness :
    (dirList midserveExcluded
        ⟨.ok ⟨"d", true, 0, 0⟩,
          .ok [⟨".git", true, 0, 0⟩, ⟨"b", true, 0, 0⟩, ⟨"a.txt", false, 0, 0⟩]⟩
        RW.init).body =
      RW.init.body ++ ("<pre>\n" ++
        concatLines ((dirListEntries midserveExcluded
          [⟨".git", true, 0, 0⟩, ⟨"b", true, 0, 0⟩, ⟨"a.txt", false, 0, 0⟩]).map
            anchorLine) ++ "</pre>\n") :=
  (claim_C1_dir_listing midserveExcluded
    ⟨.ok ⟨"d", true, 0, 0⟩,
      .ok [⟨".git", true, 0, 0⟩, ⟨"b", true, 0, 0⟩, ⟨"a.txt", false, 0, 0⟩]⟩
    [⟨".git", true, 0, 0⟩, ⟨"b", true, 0, 0⟩, ⟨"a.txt", false, 0, 0⟩]
    RW.init rfl).2.2.1

/-! ## Lemmas about splitting, joining and cleaning path segments -/

theorem mem_splitSlash_no_slash (cs : List Char) :
    ∀ s ∈ splitSlash cs, '/' ∉ s := by
  induction cs with
  | nil =>
    intro s hs
    simp only [splitSlash, List.mem_singleton] at hs
    subst hs
    simp
  | cons c cs ih =>
    intro s hs
    by_cases hc : c = '/'
    · simp only [splitSlash, if_pos hc] at hs
      rcases List.mem_cons.1 hs with h | h
      · subst h; simp
      · exact ih s h
    · simp only [splitSlash, if_neg hc] at hs
      cases hsp : splitSlash cs with
      | nil =>
        rw [hsp] at hs
        simp only [List.mem_singleton] at hs
        subst hs
        intro hm
        rcases List.mem_cons.1 hm with h | h
        · exact hc h.symm
        · exact absurd h (List.not_mem_nil _)
      | cons s' ss =>
        rw [hsp] at hs
        rcases List.mem_cons.1 hs with h | h
        · subst h
          intro hm
          rcases List.mem_cons.1 hm with h | h
          · exact hc h.symm
          · exact ih s' (by rw [hsp]; exact List.mem_cons_self s' ss) h
        · exact ih s (by rw [hsp]; exact List.mem_cons_of_mem s' h)

theorem splitSlash_singleton : ∀ s : List Char, '/' ∉ s → splitSlash s = [s] := by
  intro s
  induction s with
  | nil => intro _; rfl
  | cons c cs ih =>
    intro h
    have hc : ¬(c = '/') := fun he => h (he ▸ List.mem_cons_self c cs)
    simp only [splitSlash, if_neg hc]
    rw [ih (fun hm => h (List.mem_cons_of_mem c hm))]

theorem splitSlash_append (t : List Char) :
    ∀ s : List Char, '/' ∉ s → splitSlash (s ++ '/' :: t) = s :: splitSlash t := by
  intro s
  induction s with
  | nil =>
    intro _
    simp [splitSlash]
  | cons c cs ih =>
    intro h
    have hc : ¬(c = '/') := fun he => h (he ▸ List.mem_cons_self c cs)
    simp only [List.cons_append, splitSlash, if_neg hc]
    rw [List.append_eq, ih (fun hm => h (List.mem_cons_of_mem c hm))]

theorem splitSlash_joinSlash : ∀ segs : List (List Char), segs ≠ [] →
    (∀ s ∈ segs, '/' ∉ s) → splitSlash (joinSlash segs) = segs := by
  intro segs
  induction segs with
  | nil => intro h; cases h rfl
  | cons s rest ih =>
    intro _ hns
    cases rest with
    | nil => exact splitSlash_singleton s (hns s (List.mem_cons_self s []))
    | cons t rest2 =>
      show splitSlash (s ++ '/' :: joinSlash (t :: rest2)) = s :: t :: rest2
      rw [splitSlash_append _ s (hns s (List.mem_cons_self s _))]
      rw [ih (by simp) (fun x hx => hns x (List.mem_cons_of_mem s hx))]

theorem mem_cleanSegs : ∀ (l acc : List (List Char)) (x : List Char),
    x ∈ cleanSegs acc l → x ∈ acc ∨ (x ∈ l ∧ isCleanSeg x = true) := by
  intro l
  induction l with
  | nil =>
    intro acc x hx
    exact Or.inl (List.mem_reverse.1 hx)
  | cons s rest ih =>
    intro acc x hx
    by_cases h1 : s = [] ∨ s = ['.']
    · simp only [cleanSegs] at hx
      rw [if_pos h1] at hx
      rcases ih acc x hx with h | h
      · exact Or.inl h
      · exact Or.inr ⟨List.mem_cons_of_mem s h.1, h.2⟩
    · by_cases h2 : s = ['.', '.']
      · simp only [cleanSegs] at hx
        rw [if_neg h1, if_pos h2] at hx
        rcases ih acc.tail x hx with h | h
        · exact Or.inl (List.mem_of_mem_tail h)
        · exact Or.inr ⟨List.mem_cons_of_mem s h.1, h.2⟩
      · simp only [cleanSegs] at hx
        rw [if_neg h1, if_neg h2] at hx
        rcases ih (s :: acc) x hx with h | h
        · rcases List.mem_cons.1 h with h | h
          · subst h
            refine Or.inr ⟨List.mem_cons_self x rest, ?_⟩
            push_neg at h1
            unfold isCleanSeg
            rw [Bool.not_eq_true']
            simp [h1.1, h1.2, h2]
          · exact Or.inl h
        · exact Or.inr ⟨List.mem_cons_of_mem s h.1, h.2⟩

/-- Every segment kept by the cleaner is a clean, slash-free segment. -/
theorem cleanSegs_splitSlash_clean (cs : List Char) :
    ∀ x ∈ cleanSegs [] (splitSlash cs), isCleanSeg x = true ∧ '/' ∉ x := by
  intro x hx
  rcases mem_cleanSegs _ _ _ hx with h | h
  · exact absurd h (List.not_mem_nil x)
  · exact ⟨h.2, mem_splitSlash_no_slash cs x h.1⟩

theorem isCleanSeg_ne_nil (x : List Char) (h : isCleanSeg x = true) : x ≠ [] := by
  intro he
  subst he
  exact absurd h (by decide)

theorem joinSlash_ne_nil : ∀ segs : List (List Char), segs ≠ [] →
    (∀ x ∈ segs, x ≠ []) → joinSlash segs ≠ [] := by
  intro segs h hne
  cases segs with
  | nil => cases h rfl
  | cons s rest =>
    cases rest with
    | nil => exact hne s (List.mem_cons_self s [])
    | cons t r2 =>
      show s ++ '/' :: joinSlash (t :: r2) ≠ []
      intro hc
      have h2 := (List.append_eq_nil.1 hc).2
      simp at h2

theorem joinSlash_last_ne_slash : ∀ segs : List (List Char), segs ≠ [] →
    (∀ x ∈ segs, x ≠ [] ∧ '/' ∉ x) →
    ∀ c, (joinSlash segs).getLast? = some c → c ≠ '/' := by
  intro segs
  induction segs with
  | nil => intro h; cases h rfl
  | cons s rest ih =>
    intro _ hcl c hc
    cases rest with
    | nil =>
      intro hceq
      subst hceq
      have hs := hcl s (List.mem_cons_self s [])
      have hmem : '/' ∈ s.getLast? := Option.mem_def.2 hc
      obtain ⟨hne, heq⟩ := List.mem_getLast?_eq_getLast hmem
      exact hs.2 (heq ▸ List.getLast_mem hne)
    | cons t r2 =>
      have hjs : joinSlash (t :: r2) ≠ [] :=
        joinSlash_ne_nil _ (by simp)
          (fun x hx => (hcl x (List.mem_cons_of_mem s hx)).1)
      have hrw : (joinSlash (s :: t :: r2)).getLast? =
          (joinSlash (t :: r2)).getLast? := by
        show (s ++ '/' :: joinSlash (t :: r2)).getLast? = _
        rw [List.getLast?_append_of_ne_nil s (by simp)]
        show (['/'] ++ joinSlash (t :: r2)).getLast? = _
        rw [List.getLast?_append_of_ne_nil ['/'] hjs]
      rw [hrw] at hc
      exact ih (by simp) (fun x hx => hcl x (List.mem_cons_of_mem s hx)) c hc

theorem joinSlash_append_one (x : List Char) :
    ∀ segs : List (List Char), segs ≠ [] →
    joinSlash (segs ++ [x]) = joinSlash segs ++ '/' :: x := by
  intro segs
  induction segs with
  | nil => intro h; cases h rfl
  | cons s rest ih =>
    intro _
    cases rest with
    | nil => rfl
    | cons t r2 =>
      show s ++ '/' :: joinSlash ((t :: r2) ++ [x]) =
        (s ++ '/' :: joinSlash (t :: r2)) ++ '/' :: x
      rw [ih (by simp)]
      simp [List.append_assoc]

/-- A rooted path built from clean slash-free segments is clean. -/
theorem isCleanRootedPath_mk (segs : List (List Char))
    (h : ∀ x ∈ segs, isCleanSeg x = true ∧ '/' ∉ x) :
    isCleanRootedPath ⟨'/' :: joinSlash segs⟩ = true := by
  cases segs with
  | nil => decide
  | cons s rest =>
    show ('/' == '/' && (joinSlash (s :: rest) == [] ||
      (splitSlash (joinSlash (s :: rest))).all isCleanSeg)) = true
    rw [splitSlash_joinSlash _ (by simp) (fun x hx => (h x hx).2)]
    rw [List.all_eq_true.2 (fun x hx => (h x hx).1)]
    simp

/-- The cleaned path of any request is clean and rooted. -/
theorem goPathClean_clean (p : String) :
    isCleanRootedPath (goPathClean p) = true :=
  isCleanRootedPath_mk _ (cleanSegs_splitSlash_clean p.data)

/-- The index path probed inside a cleaned directory path is also clean
and rooted. -/
theorem indexFor_goPathClean_clean (q : String) :
    isCleanRootedPath (indexFor (goPathClean q)) = true := by
  cases hsegs : cleanSegs [] (splitSlash q.data) with
  | nil =>
    have hq : goPathClean q = "/" := by
      unfold goPathClean
      rw [hsegs]
      decide
    rw [hq]
    decide
  | cons s rest =>
    have hcl : ∀ x ∈ s :: rest, isCleanSeg x = true ∧ '/' ∉ x := by
      intro x hx
      exact cleanSegs_splitSlash_clean q.data x (by rw [hsegs]; exact hx)
    have hcl2 : ∀ x ∈ s :: rest, x ≠ [] ∧ '/' ∉ x :=
      fun x hx => ⟨isCleanSeg_ne_nil x (hcl x hx).1, (hcl x hx).2⟩
    have hdata : (goPathClean q).data = '/' :: joinSlash (s :: rest) := by
      show '/' :: joinSlash (cleanSegs [] (splitSlash q.data)) = _
      rw [hsegs]
    have hnotrail : goEndsWith (goPathClean q) "/" = false := by
      unfold goEndsWith
      rw [decide_eq_false_iff_not]
      rintro ⟨t, ht⟩
      rw [hdata] at ht
      have ht' : t ++ ['/'] = '/' :: joinSlash (s :: rest) := ht
      have hjs : joinSlash (s :: rest) ≠ [] :=
        joinSlash_ne_nil _ (by simp) (fun x hx => (hcl2 x hx).1)
      have hlast : ('/' :: joinSlash (s :: rest)).getLast? = some '/' := by
        rw [← ht']
        exact List.getLast?_concat t
      have hlast2 : (joinSlash (s :: rest)).getLast? = some '/' := by
        rw [show ('/' :: joinSlash (s :: rest)) = ['/'] ++ joinSlash (s :: rest)
            from rfl, List.getLast?_append_of_ne_nil ['/'] hjs] at hlast
        exact hlast
      exact joinSlash_last_ne_slash _ (by simp) hcl2 '/' hlast2 rfl
    have hidx : indexFor (goPathClean q) = goPathClean q ++ "/index.html" := by
      unfold indexFor goTrimSuffix
      rw [hnotrail]
      simp
    rw [hidx]
    have hdata2 : (goPathClean q ++ "/index.html").data =
        '/' :: joinSlash ((s :: rest) ++ [("index.html" : String).data]) := by
      rw [String.data_append, hdata]
      rw [joinSlash_append_one _ _ (by simp)]
      rfl
    have hstr : goPathClean q ++ "/index.html" =
        ⟨'/' :: joinSlash ((s :: rest) ++ [("index.html" : String).data])⟩ :=
      String.toList_inj.1 hdata2
    rw [hstr]
    refine isCleanRootedPath_mk _ ?_
    intro x hx
    rcases List.mem_append.1 hx with h | h
    · exact hcl x h
    · rw [List.mem_singleton] at h
      subst h
      exact ⟨by decide, by decide⟩

/-- C6: for every raw request path, the path that `ServeHTTP` hands to
the filesystem open — `path.Clean` of the slash-prefixed path — starts
with `/` and is lexically cleaned (no `.` or `..` segments, no duplicate
slashes), and so is the only other path the handler ever opens, the
index-file probe derived from it; the filesystem is never consulted with
an unnormalized path. -/
theorem claim_C6_clean_paths (p : String) :
    isCleanRootedPath (goPathClean (ensureRooted p)) = true
    ∧ isCleanRootedPath (indexFor (goPathClean (ensureRooted p))) = true :=
  ⟨goPathClean_clean (ensureRooted p), indexFor_goPathClean_clean (ensureRooted p)⟩

end Midserve
